import Mathlib

/-!
# skywire `node/api`: the tunnel start handlers of `NodeApi`

A shallow embedding of `src/node/api/api.go`.

* `NodeApi` carries the eight context / cancel fields of the Go struct, the
  state of the embedded `sync.RWMutex`, the listen address answered by
  `na.node.GetListenAddress()`, and an allocation counter giving every
  `context.WithCancel` call a fresh token.
* Each handler is a function from the state before the call, the request and
  the result of the operating-system launch (`cmd.Start`) to an `Outcome`: the
  state after, the effects emitted in program order, and the returned pair
  `(result, err)`; `ret = none` means the call never returns, because
  `na.Lock()` / `na.RLock()` cannot be acquired.
* `Thread` / `step` give the same handlers statement by statement, for the
  interleavings of two concurrent calls.
-/

namespace Skywire

/-- The four tunnel kinds, named after their handlers. -/
inductive Kind where
  | sshs
  | sshc
  | sockss
  | socksc
  deriving DecidableEq

/-- A token identifies one `(ctx, cancel)` pair returned by `context.WithCancel`. -/
abbrev Token := Nat

/-- Observable effects of the handlers, in program order. -/
inductive Event where
  /-- A stored `context.CancelFunc` was called. -/
  | cancel (t : Token)
  /-- The call `context.WithCancel(context.Background())` made for kind `k` returned token `t`. -/
  | withCancel (k : Kind) (t : Token)
  /-- The call `cmd.Start()` of `exec.CommandContext(ctx, prog, args...)`; `failed` tells whether it returned an error. -/
  | cmdStart (prog : String) (args : List String) (ctx : Token) (failed : Bool)
  /-- The call `na.srv.Close()`. -/
  | srvClose
  deriving DecidableEq

/-- The struct `NodeApi` (api.go 16-31). `osSignal` and `srv` take no part in the handlers. -/
structure NodeApi where
  address : String
  /-- The value of `na.node.GetListenAddress()`. -/
  listenAddress : String
  sshsCxt : Option Token
  sshsCancel : Option Token
  sockssCxt : Option Token
  sockssCancel : Option Token
  sshcCxt : Option Token
  sshcCancel : Option Token
  sockscCxt : Option Token
  sockscCancel : Option Token
  /-- The embedded `sync.RWMutex`: held by a writer (`Lock`). -/
  writer : Bool
  /-- The embedded `sync.RWMutex`: number of readers (`RLock`). -/
  readers : Nat
  /-- Allocation counter: the token the next `context.WithCancel` returns. -/
  nextToken : Token
  deriving DecidableEq

/-- The constructor `New` (api.go 33-35): all context and cancel fields nil, mutex free. -/
def New (addr listen : String) : NodeApi :=
  { address := addr, listenAddress := listen,
    sshsCxt := none, sshsCancel := none, sockssCxt := none, sockssCancel := none,
    sshcCxt := none, sshcCancel := none, sockscCxt := none, sockscCancel := none,
    writer := false, readers := 0, nextToken := 0 }

/-- The method `GetListenAddress` of the node. -/
def NodeApi.GetListenAddress (na : NodeApi) : String := na.listenAddress

/-- An inbound request: its form values, in order. -/
structure Request where
  form : List (String × String)
  deriving DecidableEq

/-- Go `r.FormValue(key)`: the first value for `key`, the empty string when absent. -/
def Request.FormValue (r : Request) (key : String) : String :=
  match r.form.lookup key with
  | some v => v
  | none => ""

/-- The pieces of a character sequence between occurrences of `sep`. -/
def splitChars (sep : Char) : List Char → List (List Char)
  | [] => [[]]
  | c :: cs =>
    if c = sep then [] :: splitChars sep cs
    else
      match splitChars sep cs with
      | [] => [[c]]
      | p :: ps => (c :: p) :: ps

/-- Go `strings.Split(s, sep)` for a one-character separator: all substrings
between separators, `n + 1` pieces for `n` separators. -/
def stringsSplit (s : String) (sep : Char) : List String :=
  (splitChars sep s.data).map String.mk

/-- The value pair `(result, err)` a handler returns: `[]byte` or nil, `error` or nil. -/
structure Ret where
  result : Option String
  err : Option String
  deriving DecidableEq

/-- What a call does: state after, effects emitted, and the returned values
(`none` when the call blocks for ever acquiring the mutex). -/
structure Outcome where
  na : NodeApi
  events : List Event
  ret : Option Ret
  deriving DecidableEq

/-- Effect of `if cancel != nil { cancel() }`. -/
def fire : Option Token → List Event
  | some t => [Event.cancel t]
  | none => []

/-- Whether `na.Lock()` can be acquired: no writer and no reader holds the mutex. -/
def NodeApi.canLock (na : NodeApi) : Bool := !na.writer && na.readers == 0

/-- Whether `na.RLock()` can be acquired: no writer holds the mutex. -/
def NodeApi.canRLock (na : NodeApi) : Bool := !na.writer

/-- The method `runSshc` (api.go 117-134). -/
def runSshc (na : NodeApi) (r : Request) (startErr : Option String) : Outcome :=
  if na.canLock then
    let na := { na with writer := true }
    let toNode := r.FormValue "toNode"
    let toApp := r.FormValue "toApp"
    let evs := fire na.sshcCancel
    let t := na.nextToken
    let na := { na with sshcCxt := some t, sshcCancel := some t, nextToken := t + 1 }
    let evs := evs ++ [Event.withCancel Kind.sshc t]
    let args := ["-node-key", toNode, "-app-key", toApp, "-node-address", na.GetListenAddress]
    let evs := evs ++ [Event.cmdStart "./sshc" args t startErr.isSome]
    match startErr with
    | some e => { na := na, events := evs, ret := some { result := none, err := some e } }
    | none =>
      let na := { na with writer := false }
      { na := na, events := evs, ret := some { result := some "true", err := none } }
  else { na := na, events := [], ret := none }

/-- The method `runSocksc` (api.go 136-152). -/
def runSocksc (na : NodeApi) (_r : Request) (startErr : Option String) : Outcome :=
  if na.canLock then
    let na := { na with writer := true }
    let evs := fire na.sockscCancel
    let t := na.nextToken
    let na := { na with sockscCxt := some t, sockscCancel := some t, nextToken := t + 1 }
    let evs := evs ++ [Event.withCancel Kind.socksc t]
    let args := ["-node-address", na.GetListenAddress]
    let evs := evs ++ [Event.cmdStart "./socksc" args t startErr.isSome]
    match startErr with
    | some e => { na := na, events := evs, ret := some { result := none, err := some e } }
    | none =>
      let na := { na with writer := false }
      { na := na, events := evs, ret := some { result := some "true", err := none } }
  else { na := na, events := [], ret := none }

/-- The argument list built by `runSshs` (api.go 160-171) from the listen
address and the form value `data`. -/
def sshsArgs (listen data : String) : List String :=
  let arr : List String := if data ≠ "" then stringsSplit data ',' else []
  let args : List String := []
  let args := args ++ ["-node-address"]
  let args := args ++ [listen]
  arr.foldl (fun args v => (args ++ ["-node-key"]) ++ [v]) args

/-- The method `runSshs` (api.go 154-181). -/
def runSshs (na : NodeApi) (r : Request) (startErr : Option String) : Outcome :=
  if na.canLock then
    let na := { na with writer := true }
    let evs := fire na.sshsCancel
    let t := na.nextToken
    let na := { na with sshsCxt := some t, sshsCancel := some t, nextToken := t + 1 }
    let evs := evs ++ [Event.withCancel Kind.sshs t]
    let data := r.FormValue "data"
    let args := sshsArgs na.GetListenAddress data
    let evs := evs ++ [Event.cmdStart "./sshs" args t startErr.isSome]
    match startErr with
    | some e => { na := na, events := evs, ret := some { result := none, err := some e } }
    | none =>
      let na := { na with writer := false }
      { na := na, events := evs, ret := some { result := some "true", err := none } }
  else { na := na, events := [], ret := none }

/-- The method `runSockss` (api.go 183-199). -/
def runSockss (na : NodeApi) (_r : Request) (startErr : Option String) : Outcome :=
  if na.canLock then
    let na := { na with writer := true }
    let evs := fire na.sockssCancel
    let t := na.nextToken
    let na := { na with sockssCxt := some t, sockssCancel := some t, nextToken := t + 1 }
    let evs := evs ++ [Event.withCancel Kind.sockss t]
    let args := ["-node-address", na.GetListenAddress]
    let evs := evs ++ [Event.cmdStart "./sockss" args t startErr.isSome]
    match startErr with
    | some e => { na := na, events := evs, ret := some { result := none, err := some e } }
    | none =>
      let na := { na with writer := false }
      { na := na, events := evs, ret := some { result := some "true", err := none } }
  else { na := na, events := [], ret := none }

/-- The method `Close` (api.go 37-54); `srvErr` is what `na.srv.Close()` returns. -/
def Close (na : NodeApi) (srvErr : Option String) : Outcome :=
  if na.canRLock then
    let na := { na with readers := na.readers + 1 }
    let evs := fire na.sshsCancel
    let evs := evs ++ fire na.sshcCancel
    let evs := evs ++ fire na.sockssCancel
    let evs := evs ++ fire na.sockscCancel
    let evs := evs ++ [Event.srvClose]
    -- deferred na.RUnlock()
    let na := { na with readers := na.readers - 1 }
    { na := na, events := evs, ret := some { result := none, err := srvErr } }
  else { na := na, events := [], ret := none }

/-- The routes `/node/run/sshs`, `/node/run/sshc`, `/node/run/sockss`,
`/node/run/socksc` of `StartSrv` (api.go 61-64): a start of kind `k`. -/
def start : Kind → NodeApi → Request → Option String → Outcome
  | Kind.sshs => runSshs
  | Kind.sshc => runSshc
  | Kind.sockss => runSockss
  | Kind.socksc => runSocksc

/-- The cancel field of kind `k`. -/
def NodeApi.cancelOf (na : NodeApi) : Kind → Option Token
  | Kind.sshs => na.sshsCancel
  | Kind.sshc => na.sshcCancel
  | Kind.sockss => na.sockssCancel
  | Kind.socksc => na.sockscCancel

/-- The context field of kind `k`. -/
def NodeApi.cxtOf (na : NodeApi) : Kind → Option Token
  | Kind.sshs => na.sshsCxt
  | Kind.sshc => na.sshcCxt
  | Kind.sockss => na.sockssCxt
  | Kind.socksc => na.sockscCxt

/-- The program a start of kind `k` launches. -/
def program : Kind → String
  | Kind.sshs => "./sshs"
  | Kind.sshc => "./sshc"
  | Kind.sockss => "./sockss"
  | Kind.socksc => "./socksc"

/-- The argument list a start of kind `k` hands to `exec.CommandContext`. -/
def launchArgs : Kind → NodeApi → Request → List String
  | Kind.sshs, na, r => sshsArgs na.GetListenAddress (r.FormValue "data")
  | Kind.sshc, na, r =>
    ["-node-key", r.FormValue "toNode", "-app-key", r.FormValue "toApp",
      "-node-address", na.GetListenAddress]
  | Kind.sockss, na, _ => ["-node-address", na.GetListenAddress]
  | Kind.socksc, na, _ => ["-node-address", na.GetListenAddress]

/-- One call made to the `NodeApi`: a start of some kind with the outcome of
its launch, or `Close` with the outcome of `na.srv.Close()`. -/
inductive Op where
  | start (k : Kind) (r : Request) (startErr : Option String)
  | close (srvErr : Option String)

/-- The outcome of one call. -/
def Op.run : Op → NodeApi → Outcome
  | Op.start k r e, na => Skywire.start k na r e
  | Op.close e, na => Close na e

/-- Calls applied one after the other; the second component accumulates the
effects emitted so far. A call that blocks leaves the state as it is. -/
def runOps (ops : List Op) (s : NodeApi × List Event) : NodeApi × List Event :=
  ops.foldl (fun s op => ((op.run s.1).na, s.2 ++ (op.run s.1).events)) s

/-- A sequence of start requests whose launches all succeed. -/
def startOps (calls : List (Kind × Request)) : List Op :=
  calls.map fun c => Op.start c.1 c.2 none

/-- Tokens created for kind `k` in a trace, oldest first. -/
def created (tr : List Event) (k : Kind) : List Token :=
  tr.filterMap fun e =>
    match e with
    | Event.withCancel k' t => if k' = k then some t else none
    | _ => none

/-- Whether the cancel function of token `t` was fired in a trace. -/
def cancelled (tr : List Event) (t : Token) : Bool := tr.contains (Event.cancel t)

/-- Tokens created for kind `k` and not yet cancelled. -/
def live (tr : List Event) (k : Kind) : List Token :=
  (created tr k).filter fun t => !cancelled tr t

/-- The flag pairs for a list of peer keys: `-node-key` before each key, in order. -/
def keyFlags : List String → List String
  | [] => []
  | k :: ks => "-node-key" :: k :: keyFlags ks

/-- The characters that follow the first key in a comma-joined list. -/
def joinTail : List String → List Char
  | [] => []
  | k :: ks => ',' :: (k.data ++ joinTail ks)

/-- A freshly constructed `NodeApi`, used in the concrete evaluations. -/
def node0 : NodeApi := New ":6001" "10.0.0.1:5000"

/-- A request carrying no form value. -/
def noForm : Request := { form := [] }

/-- The error `cmd.Start` returns when the binary is missing. -/
def launchError : String := "fork/exec ./tunnel: no such file or directory"

/-- The state and the trace agree: tokens come from the allocation counter,
no token was created twice, and every token created for a kind is either the
one stored in that kind's slot or has been cancelled. -/
def Consistent (na : NodeApi) (tr : List Event) : Prop :=
  (∀ t, cancelled tr t = true → t < na.nextToken) ∧
  (∀ k t, t ∈ created tr k → t < na.nextToken) ∧
  (∀ k t, na.cancelOf k = some t → t < na.nextToken) ∧
  (∀ k, (created tr k).Nodup) ∧
  (∀ k t, t ∈ created tr k → na.cancelOf k = some t ∨ cancelled tr t = true)

/-! ### The handlers statement by statement -/

/-- Program points of a start handler. -/
inductive Pc where
  /-- At `na.Lock()`. -/
  | lock
  /-- At `if cancel != nil { cancel() }`. -/
  | cancelOld
  /-- At `ctx, cancel = context.WithCancel(context.Background())`. -/
  | newToken
  /-- At `cmd := exec.CommandContext(ctx, ...); err = cmd.Start()`. -/
  | launch
  /-- At `na.Unlock()`. -/
  | unlock
  /-- The handler has returned `ret`. -/
  | returned (ret : Ret)
  deriving DecidableEq

/-- One running call of a start handler. `made` records the token that
`context.WithCancel` returned to this call. -/
structure Thread where
  kind : Kind
  r : Request
  startErr : Option String
  pc : Pc
  made : Option Token
  deriving DecidableEq

/-- A call that has not begun. -/
def Thread.init (k : Kind) (r : Request) (startErr : Option String) : Thread :=
  { kind := k, r := r, startErr := startErr, pc := Pc.lock, made := none }

/-- Assignment of a fresh pair to the context and cancel fields of kind `k`. -/
def NodeApi.setSlot (na : NodeApi) (k : Kind) (t : Token) : NodeApi :=
  match k with
  | Kind.sshs => { na with sshsCxt := some t, sshsCancel := some t }
  | Kind.sshc => { na with sshcCxt := some t, sshcCancel := some t }
  | Kind.sockss => { na with sockssCxt := some t, sockssCancel := some t }
  | Kind.socksc => { na with sockscCxt := some t, sockscCancel := some t }

/-- The next statement of a call: `none` when the call cannot move (it waits
for the mutex, has returned, or `exec.CommandContext` was handed a nil context). -/
def Thread.step (th : Thread) (na : NodeApi) : Option (NodeApi × List Event × Thread) :=
  match th.pc with
  | Pc.lock =>
    if na.canLock then some ({ na with writer := true }, [], { th with pc := Pc.cancelOld })
    else none
  | Pc.cancelOld => some (na, fire (na.cancelOf th.kind), { th with pc := Pc.newToken })
  | Pc.newToken =>
    let t := na.nextToken
    some ({ na.setSlot th.kind t with nextToken := t + 1 }, [Event.withCancel th.kind t],
      { th with pc := Pc.launch, made := some t })
  | Pc.launch =>
    match na.cxtOf th.kind with
    | none => none
    | some c =>
      let ev := Event.cmdStart (program th.kind) (launchArgs th.kind na th.r) c th.startErr.isSome
      match th.startErr with
      | some e => some (na, [ev], { th with pc := Pc.returned { result := none, err := some e } })
      | none => some (na, [ev], { th with pc := Pc.unlock })
  | Pc.unlock =>
    some ({ na with writer := false }, [], { th with pc := Pc.returned { result := some "true", err := none } })
  | Pc.returned _ => none

/-- A call run on its own for at most `n` statements. -/
def Thread.runAlone : Nat → Thread → NodeApi → List Event → NodeApi × List Event × Thread
  | 0, th, na, evs => (na, evs, th)
  | n + 1, th, na, evs =>
    match th.step na with
    | some (na1, evs1, th1) => Thread.runAlone n th1 na1 (evs ++ evs1)
    | none => (na, evs, th)

/-- Whether a call holds the mutex: from after `na.Lock()` up to `na.Unlock()`,
and for ever once it has returned an error. -/
def Thread.holds (th : Thread) : Bool :=
  match th.pc with
  | Pc.lock => false
  | Pc.cancelOld => true
  | Pc.newToken => true
  | Pc.launch => true
  | Pc.unlock => true
  | Pc.returned ret => ret.err.isSome

/-- Two concurrent calls on one `NodeApi`, with the trace of effects so far. -/
structure Sys where
  na : NodeApi
  trace : List Event
  a : Thread
  b : Thread
  deriving DecidableEq

/-- One scheduling decision: the chosen call executes its next statement; a
call that cannot move leaves the system as it is. -/
def Sys.step (s : Sys) (first : Bool) : Sys :=
  if first then
    match s.a.step s.na with
    | some (na, evs, th) => { s with na := na, trace := s.trace ++ evs, a := th }
    | none => s
  else
    match s.b.step s.na with
    | some (na, evs, th) => { s with na := na, trace := s.trace ++ evs, b := th }
    | none => s

/-- The system after a schedule. -/
def Sys.run (s : Sys) (sched : List Bool) : Sys := sched.foldl Sys.step s

/-- What one call knows about itself and about the other call. -/
def ThreadInv (k : Kind) (na : NodeApi) (tr : List Event) (th other : Thread) : Prop :=
  th.kind = k ∧
  (∀ t, th.made = some t → t ∈ created tr k ∧ other.made ≠ some t) ∧
  match th.pc with
  | Pc.lock => th.made = none
  | Pc.cancelOld => th.made = none ∧ na.writer = true ∧ other.holds = false
  | Pc.newToken =>
    th.made = none ∧ na.writer = true ∧ other.holds = false ∧
      ∀ t, na.cancelOf k = some t → cancelled tr t = true
  | Pc.launch =>
    na.writer = true ∧ other.holds = false ∧
      ∃ t, th.made = some t ∧ na.cancelOf k = some t ∧ cancelled tr t = false
  | Pc.unlock =>
    na.writer = true ∧ other.holds = false ∧
      ∃ t, th.made = some t ∧ na.cancelOf k = some t ∧ cancelled tr t = false
  | Pc.returned ret =>
    (∃ t, th.made = some t) ∧ (ret.err.isSome = true → na.writer = true ∧ other.holds = false)

/-- Once one of the two calls has created its token, the slot of `k` holds a
token of one of the calls that is not cancelled, except while a call stands
between cancelling the stored token and storing its own. -/
def SlotLive (k : Kind) (na : NodeApi) (tr : List Event) (a b : Thread) : Prop :=
  a.made ≠ none ∨ b.made ≠ none →
    a.pc = Pc.newToken ∨ b.pc = Pc.newToken ∨
      ∃ t, na.cancelOf k = some t ∧ cancelled tr t = false ∧ (a.made = some t ∨ b.made = some t)

/-- The invariant of two concurrent starts of kind `k`. -/
def SysInv (k : Kind) (s : Sys) : Prop :=
  Consistent s.na s.trace ∧
  ThreadInv k s.na s.trace s.a s.b ∧
  ThreadInv k s.na s.trace s.b s.a ∧
  SlotLive k s.na s.trace s.a s.b

/-- The state and trace reached from a fresh `NodeApi` by a sequence of calls. -/
def reached (addr listen : String) (ops : List Op) : NodeApi × List Event :=
  runOps ops (New addr listen, [])

/-- Two concurrent starts of kind `k`, issued in a reached state, after a schedule. -/
def concurrentStarts (addr listen : String) (ops : List Op) (k : Kind) (r1 r2 : Request)
    (e1 e2 : Option String) (sched : List Bool) : Sys :=
  Sys.run
    { na := (reached addr listen ops).1, trace := (reached addr listen ops).2,
      a := Thread.init k r1 e1, b := Thread.init k r2 e2 } sched

/-! ### What a start does -/

theorem start_blocked (k : Kind) (na : NodeApi) (r : Request) (e : Option String)
    (h : na.canLock = false) : start k na r e = { na := na, events := [], ret := none } := by
  cases k <;> simp [start, runSshs, runSshc, runSockss, runSocksc, h]

theorem start_events (k : Kind) (na : NodeApi) (r : Request) (e : Option String)
    (h : na.canLock = true) :
    (start k na r e).events =
      fire (na.cancelOf k) ++ [Event.withCancel k na.nextToken,
        Event.cmdStart (program k) (launchArgs k na r) na.nextToken e.isSome] := by
  cases k <;> cases e <;>
    simp [start, runSshs, runSshc, runSockss, runSocksc, h, NodeApi.cancelOf, program,
      launchArgs, NodeApi.GetListenAddress]

theorem start_cancelOf (k k' : Kind) (na : NodeApi) (r : Request) (e : Option String)
    (h : na.canLock = true) :
    (start k na r e).na.cancelOf k' = if k' = k then some na.nextToken else na.cancelOf k' := by
  cases k <;> cases k' <;> cases e <;>
    simp [start, runSshs, runSshc, runSockss, runSocksc, h, NodeApi.cancelOf]

theorem start_cxtOf (k k' : Kind) (na : NodeApi) (r : Request) (e : Option String)
    (h : na.canLock = true) :
    (start k na r e).na.cxtOf k' = if k' = k then some na.nextToken else na.cxtOf k' := by
  cases k <;> cases k' <;> cases e <;>
    simp [start, runSshs, runSshc, runSockss, runSocksc, h, NodeApi.cxtOf]

theorem start_nextToken (k : Kind) (na : NodeApi) (r : Request) (e : Option String)
    (h : na.canLock = true) : (start k na r e).na.nextToken = na.nextToken + 1 := by
  cases k <;> cases e <;> simp [start, runSshs, runSshc, runSockss, runSocksc, h]

theorem start_writer (k : Kind) (na : NodeApi) (r : Request) (e : Option String)
    (h : na.canLock = true) : (start k na r e).na.writer = e.isSome := by
  cases k <;> cases e <;> simp [start, runSshs, runSshc, runSockss, runSocksc, h]

theorem start_readers (k : Kind) (na : NodeApi) (r : Request) (e : Option String) :
    (start k na r e).na.readers = na.readers := by
  cases k <;> cases e <;> simp only [start, runSshs, runSshc, runSockss, runSocksc] <;>
    split <;> rfl

theorem start_ret (k : Kind) (na : NodeApi) (r : Request) (e : Option String)
    (h : na.canLock = true) :
    (start k na r e).ret = some (match e with
      | some x => { result := none, err := some x }
      | none => { result := some "true", err := none }) := by
  cases k <;> cases e <;> simp [start, runSshs, runSshc, runSockss, runSocksc, h]

theorem canLock_cases (na : NodeApi) : na.canLock = true ∨ na.canLock = false := by
  cases na.canLock <;> simp

/-- A start in a state whose mutex is free cancels the stored token, then
creates the new one, then launches; the slot then holds the new token. -/
theorem start_supersedes (k : Kind) (na : NodeApi) (r : Request) (e : Option String) (t : Token)
    (hfree : na.canLock = true) (hslot : na.cancelOf k = some t) (hold : t < na.nextToken) :
    (start k na r e).events =
      [Event.cancel t, Event.withCancel k na.nextToken,
        Event.cmdStart (program k) (launchArgs k na r) na.nextToken e.isSome] ∧
    (start k na r e).na.cancelOf k = some na.nextToken ∧
    (start k na r e).na.cxtOf k = some na.nextToken ∧
    na.nextToken ≠ t := by
  refine ⟨?_, ?_, ?_, Nat.ne_of_gt hold⟩
  · rw [start_events k na r e hfree, hslot]; rfl
  · rw [start_cancelOf k k na r e hfree]; simp
  · rw [start_cxtOf k k na r e hfree]; simp

/-! ### The argument list of `runSshs` -/

theorem foldl_keyFlags (arr init : List String) :
    arr.foldl (fun args v => (args ++ ["-node-key"]) ++ [v]) init = init ++ keyFlags arr := by
  induction arr generalizing init with
  | nil => simp [keyFlags]
  | cons v vs ih =>
    simp only [List.foldl_cons]
    rw [ih]
    simp [keyFlags]

theorem length_keyFlags (keys : List String) : (keyFlags keys).length = 2 * keys.length := by
  induction keys with
  | nil => rfl
  | cons k ks ih => simp [keyFlags, ih]; omega

theorem splitChars_ne_nil (sep : Char) (cs : List Char) : splitChars sep cs ≠ [] := by
  cases cs with
  | nil => simp [splitChars]
  | cons c cs =>
    unfold splitChars
    split
    · simp
    · split <;> simp

theorem splitChars_no_sep (sep : Char) (cs : List Char) (h : sep ∉ cs) :
    splitChars sep cs = [cs] := by
  induction cs with
  | nil => rfl
  | cons c cs ih =>
    have hc : c ≠ sep := fun hc => h (by simp [hc])
    have hcs : sep ∉ cs := fun hm => h (List.mem_cons_of_mem _ hm)
    simp [splitChars, hc, ih hcs]

theorem splitChars_append_sep (sep : Char) (cs rest : List Char) (h : sep ∉ cs) :
    splitChars sep (cs ++ sep :: rest) = cs :: splitChars sep rest := by
  induction cs with
  | nil => simp [splitChars]
  | cons c cs ih =>
    have hc : c ≠ sep := fun hc => h (by simp [hc])
    have hcs : sep ∉ cs := fun hm => h (List.mem_cons_of_mem _ hm)
    simp [splitChars, hc, ih hcs]

theorem intercalate_go_data (acc : String) (ks : List String) :
    (String.intercalate.go acc "," ks).data = acc.data ++ joinTail ks := by
  induction ks generalizing acc with
  | nil => simp [String.intercalate.go, joinTail]
  | cons k ks ih => simp [String.intercalate.go, ih, joinTail]

theorem splitChars_join (k : String) (ks : List String)
    (h : ∀ x ∈ k :: ks, ',' ∉ x.data) :
    splitChars ',' (k.data ++ joinTail ks) = (k :: ks).map String.data := by
  induction ks generalizing k with
  | nil => simpa [joinTail] using splitChars_no_sep ',' k.data (h k (by simp))
  | cons k' ks ih =>
    have hk : ',' ∉ k.data := h k (by simp)
    have hrest : ∀ x ∈ k' :: ks, ',' ∉ x.data := fun x hx => h x (List.mem_cons_of_mem _ hx)
    simp only [joinTail]
    rw [splitChars_append_sep ',' k.data _ hk, ih k' hrest]
    simp

theorem stringsSplit_intercalate (k : String) (ks : List String)
    (h : ∀ x ∈ k :: ks, ',' ∉ x.data) :
    stringsSplit (String.intercalate "," (k :: ks)) ',' = k :: ks := by
  unfold stringsSplit
  rw [String.intercalate, intercalate_go_data, splitChars_join k ks h]
  simp [List.map_map, Function.comp_def]

theorem intercalate_ne_empty (k : String) (ks : List String) (hk : k ≠ "") :
    String.intercalate "," (k :: ks) ≠ "" := by
  intro h
  have hd := congrArg String.data h
  rw [String.intercalate, intercalate_go_data] at hd
  have : k.data = [] := by
    have h2 : k.data ++ joinTail ks = [] := by simpa using hd
    exact (List.append_eq_nil.mp h2).1
  exact hk (String.ext this)

theorem sshsArgs_keys (listen : String) (keys : List String)
    (hkeys : ∀ k ∈ keys, k ≠ "" ∧ ',' ∉ k.data) :
    sshsArgs listen (String.intercalate "," keys) = ["-node-address", listen] ++ keyFlags keys := by
  cases keys with
  | nil => simp [sshsArgs, String.intercalate, keyFlags]
  | cons k ks =>
    unfold sshsArgs
    have hne := intercalate_ne_empty k ks (hkeys k (by simp)).1
    have hsplit := stringsSplit_intercalate k ks (fun x hx => (hkeys x hx).2)
    simp only [hne, ne_eq, not_false_eq_true, if_true, hsplit, foldl_keyFlags]
    simp

theorem sshsArgs_eq (listen data : String) :
    sshsArgs listen data =
      ["-node-address", listen] ++ keyFlags (if data ≠ "" then stringsSplit data ',' else []) := by
  unfold sshsArgs
  simp only [foldl_keyFlags]
  simp

theorem mem_fire (o : Option Token) (ev : Event) :
    ev ∈ fire o ↔ ∃ t, o = some t ∧ ev = Event.cancel t := by
  cases o <;> simp [fire]

theorem cmdStart_mem_start (k : Kind) (na : NodeApi) (r : Request) (e : Option String)
    (p : String) (args : List String) (c : Token) (f : Bool)
    (h : Event.cmdStart p args c f ∈ (start k na r e).events) :
    na.canLock = true ∧ p = program k ∧ args = launchArgs k na r ∧ c = na.nextToken ∧
      f = e.isSome := by
  rcases canLock_cases na with hf | hf
  · rw [start_events k na r e hf] at h
    simp only [List.mem_append, mem_fire, List.mem_cons, List.mem_singleton, Event.cmdStart.injEq,
      List.not_mem_nil, or_false] at h
    rcases h with ⟨t, -, ht⟩ | h | h
    · cases ht
    · cases h
    · exact ⟨hf, h.1, h.2.1, h.2.2.1, h.2.2.2⟩
  · rw [start_blocked k na r e hf] at h
    simp at h

/-- When the mutex is free, `Close` fires the stored cancel function of each
of the four slots, in the order of the source, then closes the server; the
fields are left as they were. -/
theorem close_fires_all (na : NodeApi) (e : Option String) (h : na.canRLock = true) :
    Close na e =
      { na := na,
        events := fire na.sshsCancel ++ fire na.sshcCancel ++ fire na.sockssCancel ++
          fire na.sockscCancel ++ [Event.srvClose],
        ret := some { result := none, err := e } } := by
  simp [Close, h]

theorem close_blocked (na : NodeApi) (e : Option String) (h : na.canRLock = false) :
    Close na e = { na := na, events := [], ret := none } := by
  simp [Close, h]

theorem start_failed_keeps_lock (k : Kind) (na : NodeApi) (r : Request) (x : String)
    (h : na.canLock = true) :
    (start k na r (some x)).na.canLock = false ∧ (start k na r (some x)).na.canRLock = false := by
  have hw := start_writer k na r (some x) h
  simp [NodeApi.canLock, NodeApi.canRLock, hw]

theorem start_ok_unlocks (k : Kind) (na : NodeApi) (r : Request) (h : na.canLock = true) :
    (start k na r none).na.canLock = true := by
  have hw := start_writer k na r none h
  have hr := start_readers k na r none
  have h2 : na.writer = false ∧ na.readers = 0 := by simpa [NodeApi.canLock] using h
  simp [NodeApi.canLock, hw, hr, h2.2]

/-! ### Traces and the consistency of state and trace -/

theorem created_append (tr evs : List Event) (k : Kind) :
    created (tr ++ evs) k = created tr k ++ created evs k := by
  simp [created, List.filterMap_append]

theorem cancelled_append (tr evs : List Event) (t : Token) :
    cancelled (tr ++ evs) t = (cancelled tr t || cancelled evs t) := by
  simp [cancelled]

theorem created_fire (o : Option Token) (k : Kind) : created (fire o) k = [] := by
  cases o <;> simp [fire, created]

theorem cancelled_fire (o : Option Token) (t : Token) :
    cancelled (fire o) t = true ↔ o = some t := by
  cases o with
  | none => simp [fire, cancelled]
  | some x =>
    simp only [fire, cancelled, List.contains_cons, List.contains_nil, Bool.or_false,
      Option.some.injEq]
    constructor
    · intro h
      have := of_decide_eq_true h
      cases this; rfl
    · intro h; subst h; simp

theorem created_withCancel (k k' : Kind) (n : Token) :
    created [Event.withCancel k n] k' = if k = k' then [n] else [] := by
  by_cases h : k = k' <;> simp [created, h]

theorem cancelled_withCancel (k : Kind) (n t : Token) :
    cancelled [Event.withCancel k n] t = false := by
  simp [cancelled]

theorem created_cmdStart (p : String) (args : List String) (c : Token) (f : Bool) (k : Kind) :
    created [Event.cmdStart p args c f] k = [] := by
  simp [created]

theorem cancelled_cmdStart (p : String) (args : List String) (c : Token) (f : Bool) (t : Token) :
    cancelled [Event.cmdStart p args c f] t = false := by
  simp [cancelled]

theorem consistent_New (addr listen : String) : Consistent (New addr listen) [] := by
  refine ⟨?_, ?_, ?_, ?_, ?_⟩
  · intro t h; simp [cancelled] at h
  · intro k t h; simp [created] at h
  · intro k t h; cases k <;> simp [New, NodeApi.cancelOf] at h
  · intro k; simp [created]
  · intro k t h; simp [created] at h

/-- Effects that create no token and cancel only stored tokens keep state and
trace consistent, as long as the cancel fields and the counter stay put. -/
theorem consistent_append_cancels (na na' : NodeApi) (tr evs : List Event)
    (hc : Consistent na tr) (hcr : ∀ k, created evs k = [])
    (hcan : ∀ t, cancelled evs t = true → ∃ k, na.cancelOf k = some t)
    (hslot : ∀ k, na'.cancelOf k = na.cancelOf k) (hnext : na'.nextToken = na.nextToken) :
    Consistent na' (tr ++ evs) := by
  obtain ⟨h1, h2, h3, h4, h5⟩ := hc
  refine ⟨?_, ?_, ?_, ?_, ?_⟩
  · intro t ht
    rw [cancelled_append, Bool.or_eq_true] at ht
    rw [hnext]
    rcases ht with ht | ht
    · exact h1 t ht
    · obtain ⟨k, hk⟩ := hcan t ht
      exact h3 k t hk
  · intro k t ht
    rw [created_append, hcr, List.append_nil] at ht
    rw [hnext]; exact h2 k t ht
  · intro k t ht
    rw [hslot] at ht
    rw [hnext]; exact h3 k t ht
  · intro k
    rw [created_append, hcr, List.append_nil]; exact h4 k
  · intro k t ht
    rw [created_append, hcr, List.append_nil] at ht
    rw [hslot, cancelled_append, Bool.or_eq_true]
    rcases h5 k t ht with h | h
    · exact Or.inl h
    · exact Or.inr (Or.inl h)

/-- Storing a fresh token in a slot whose previous token is already cancelled
keeps state and trace consistent. -/
theorem consistent_create (na na' : NodeApi) (tr : List Event) (k : Kind)
    (hc : Consistent na tr) (hold : ∀ t, na.cancelOf k = some t → cancelled tr t = true)
    (hnext : na'.nextToken = na.nextToken + 1)
    (hslot : ∀ k', na'.cancelOf k' = if k' = k then some na.nextToken else na.cancelOf k') :
    Consistent na' (tr ++ [Event.withCancel k na.nextToken]) := by
  obtain ⟨h1, h2, h3, h4, h5⟩ := hc
  refine ⟨?_, ?_, ?_, ?_, ?_⟩
  · intro t ht
    rw [cancelled_append, cancelled_withCancel, Bool.or_false] at ht
    rw [hnext]; exact Nat.lt_succ_of_lt (h1 t ht)
  · intro k' t ht
    rw [created_append, created_withCancel, List.mem_append] at ht
    rw [hnext]
    rcases ht with ht | ht
    · exact Nat.lt_succ_of_lt (h2 k' t ht)
    · split at ht
      · simp only [List.mem_singleton] at ht
        rw [ht]; exact Nat.lt_succ_self _
      · simp at ht
  · intro k' t ht
    rw [hslot, hnext] at *
    split at ht
    · cases ht; exact Nat.lt_succ_self _
    · exact Nat.lt_succ_of_lt (h3 k' t ht)
  · intro k'
    rw [created_append, created_withCancel]
    split
    · rw [List.nodup_append]
      refine ⟨h4 k', List.nodup_singleton _, ?_⟩
      intro x hx hx'
      simp only [List.mem_singleton] at hx'
      subst hx'
      exact Nat.lt_irrefl _ (h2 k' _ hx)
    · simpa using h4 k'
  · intro k' t ht
    rw [created_append, created_withCancel, List.mem_append] at ht
    rw [hslot, cancelled_append, cancelled_withCancel, Bool.or_false]
    rcases ht with ht | ht
    · by_cases hk : k' = k
      · subst hk
        rcases h5 k' t ht with h | h
        · exact Or.inr (hold t h)
        · exact Or.inr h
      · rw [if_neg hk]; exact h5 k' t ht
    · split at ht
      · rename_i hk
        simp only [List.mem_singleton] at ht
        subst hk
        subst ht
        simp
      · simp at ht

theorem consistent_start (k : Kind) (na : NodeApi) (r : Request) (e : Option String)
    (tr : List Event) (hc : Consistent na tr) :
    Consistent (start k na r e).na (tr ++ (start k na r e).events) := by
  rcases canLock_cases na with hf | hf
  · rw [start_events k na r e hf]
    have hA : Consistent na (tr ++ fire (na.cancelOf k)) :=
      consistent_append_cancels na na tr _ hc (fun k' => created_fire _ k')
        (fun t ht => ⟨k, (cancelled_fire _ t).mp ht⟩) (fun _ => rfl) rfl
    have hB : Consistent (start k na r e).na
        (tr ++ fire (na.cancelOf k) ++ [Event.withCancel k na.nextToken]) := by
      refine consistent_create na _ _ k hA ?_ (start_nextToken k na r e hf)
        (fun k' => start_cancelOf k k' na r e hf)
      intro t ht
      rw [cancelled_append, Bool.or_eq_true]
      exact Or.inr ((cancelled_fire _ t).mpr ht)
    have hC := consistent_append_cancels (start k na r e).na (start k na r e).na _
      [Event.cmdStart (program k) (launchArgs k na r) na.nextToken e.isSome] hB
      (fun k' => created_cmdStart _ _ _ _ k')
      (fun t ht => by rw [cancelled_cmdStart] at ht; cases ht) (fun _ => rfl) rfl
    simpa [List.append_assoc] using hC
  · rw [start_blocked k na r e hf]
    simpa using hc

theorem consistent_close (na : NodeApi) (e : Option String) (tr : List Event)
    (hc : Consistent na tr) : Consistent (Close na e).na (tr ++ (Close na e).events) := by
  cases h : na.canRLock with
  | true =>
    rw [close_fires_all na e h]
    refine consistent_append_cancels na na tr _ hc ?_ ?_ (fun _ => rfl) rfl
    · intro k
      have hs : created [Event.srvClose] k = [] := by simp [created]
      simp only [created_append, created_fire, hs, List.append_nil]
    · intro t ht
      simp only [cancelled_append, Bool.or_eq_true, cancelled_fire] at ht
      rcases ht with (((ht | ht) | ht) | ht) | ht
      · exact ⟨Kind.sshs, ht⟩
      · exact ⟨Kind.sshc, ht⟩
      · exact ⟨Kind.sockss, ht⟩
      · exact ⟨Kind.socksc, ht⟩
      · simp [cancelled] at ht
  | false =>
    rw [close_blocked na e h]
    simpa using hc

theorem consistent_runOps (ops : List Op) (na : NodeApi) (tr : List Event)
    (hc : Consistent na tr) : Consistent (runOps ops (na, tr)).1 (runOps ops (na, tr)).2 := by
  induction ops generalizing na tr with
  | nil => simpa [runOps] using hc
  | cons op ops ih =>
    have hstep : Consistent (op.run na).na (tr ++ (op.run na).events) := by
      cases op with
      | start k r e => exact consistent_start k na r e tr hc
      | close e => exact consistent_close na e tr hc
    have := ih (op.run na).na (tr ++ (op.run na).events) hstep
    simpa [runOps] using this

theorem length_le_one_of_nodup_of_forall_eq (l : List Token) (x : Token) (hn : l.Nodup)
    (h : ∀ y ∈ l, y = x) : l.length ≤ 1 := by
  match l, hn, h with
  | [], _, _ => simp
  | [_], _, _ => simp
  | a :: b :: _, hn, h =>
    have ha : a = x := h a (by simp)
    have hb : b = x := h b (by simp)
    rw [ha, hb] at hn
    simp at hn

theorem mem_live (tr : List Event) (k : Kind) (t : Token) :
    t ∈ live tr k ↔ t ∈ created tr k ∧ cancelled tr t = false := by
  simp [live]

theorem live_nodup (na : NodeApi) (tr : List Event) (k : Kind) (hc : Consistent na tr) :
    (live tr k).Nodup :=
  (hc.2.2.2.1 k).filter _

theorem live_eq_slot (na : NodeApi) (tr : List Event) (k : Kind) (hc : Consistent na tr)
    (t : Token) (ht : t ∈ live tr k) : na.cancelOf k = some t := by
  rw [mem_live] at ht
  rcases hc.2.2.2.2 k t ht.1 with h | h
  · exact h
  · rw [ht.2] at h; cases h

/-- In a consistent state at most one token of each kind is live. -/
theorem live_length_le_one (na : NodeApi) (tr : List Event) (k : Kind) (hc : Consistent na tr) :
    (live tr k).length ≤ 1 := by
  cases hs : na.cancelOf k with
  | none =>
    have : live tr k = [] := by
      apply List.eq_nil_iff_forall_not_mem.mpr
      intro t ht
      have := live_eq_slot na tr k hc t ht
      rw [hs] at this; cases this
    simp [this]
  | some x =>
    refine length_le_one_of_nodup_of_forall_eq _ x (live_nodup na tr k hc) ?_
    intro y hy
    have := live_eq_slot na tr k hc y hy
    rw [hs] at this
    exact (Option.some.inj this).symm

theorem startOps_free_and_count (calls : List (Kind × Request)) (na : NodeApi) (tr : List Event)
    (k : Kind) (hf : na.canLock = true) :
    (runOps (startOps calls) (na, tr)).1.canLock = true ∧
    (created (runOps (startOps calls) (na, tr)).2 k).length =
      (created tr k).length + (calls.filter fun c => c.1 = k).length := by
  induction calls generalizing na tr with
  | nil => simp [runOps, startOps, hf]
  | cons c cs ih =>
    have hf' := start_ok_unlocks c.1 na c.2 hf
    have h := ih (start c.1 na c.2 none).na (tr ++ (start c.1 na c.2 none).events) hf'
    have hcr : (created (tr ++ (start c.1 na c.2 none).events) k).length =
        (created tr k).length + (if c.1 = k then 1 else 0) := by
      rw [start_events c.1 na c.2 none hf]
      simp only [created_append, created_fire, List.length_append, List.length_nil]
      have : created [Event.withCancel c.1 na.nextToken,
          Event.cmdStart (program c.1) (launchArgs c.1 na c.2) na.nextToken (none : Option String).isSome] k
          = if c.1 = k then [na.nextToken] else [] := by
        by_cases hk : c.1 = k <;> simp [created, hk]
      rw [this]
      split <;> simp
    simp only [runOps, startOps, List.map_cons, List.foldl_cons, Op.run] at h ⊢
    refine ⟨h.1, ?_⟩
    rw [h.2, hcr, List.filter_cons]
    by_cases hk : c.1 = k
    · simp [hk]; omega
    · simp [hk]

/-! ### Two concurrent starts -/

theorem cancelOf_setWriter (na : NodeApi) (w : Bool) (k : Kind) :
    ({ na with writer := w } : NodeApi).cancelOf k = na.cancelOf k := by
  cases k <;> rfl

theorem cancelOf_setSlot (na : NodeApi) (k k' : Kind) (n m : Token) :
    ({ na.setSlot k n with nextToken := m } : NodeApi).cancelOf k' =
      if k' = k then some n else na.cancelOf k' := by
  cases k <;> cases k' <;> simp [NodeApi.setSlot, NodeApi.cancelOf]

theorem cxtOf_setSlot (na : NodeApi) (k k' : Kind) (n m : Token) :
    ({ na.setSlot k n with nextToken := m } : NodeApi).cxtOf k' =
      if k' = k then some n else na.cxtOf k' := by
  cases k <;> cases k' <;> simp [NodeApi.setSlot, NodeApi.cxtOf]

theorem writer_setSlot (na : NodeApi) (k : Kind) (n m : Token) :
    ({ na.setSlot k n with nextToken := m } : NodeApi).writer = na.writer := by
  cases k <;> rfl

/-- A call that holds the mutex sees the writer flag set. -/
theorem threadInv_holds_writer (k : Kind) (na : NodeApi) (tr : List Event) (th other : Thread)
    (h : ThreadInv k na tr th other) (hh : th.holds = true) :
    na.writer = true ∧ other.holds = false := by
  obtain ⟨-, -, h3⟩ := h
  cases hpc : th.pc with
  | lock => simp [Thread.holds, hpc] at hh
  | cancelOld => rw [hpc] at h3; exact ⟨h3.2.1, h3.2.2⟩
  | newToken => rw [hpc] at h3; exact ⟨h3.2.1, h3.2.2.1⟩
  | launch => rw [hpc] at h3; exact ⟨h3.1, h3.2.1⟩
  | unlock => rw [hpc] at h3; exact ⟨h3.1, h3.2.1⟩
  | returned ret =>
    rw [hpc] at h3
    simp only [Thread.holds, hpc] at hh
    exact h3.2 hh

/-- A call that does not hold the mutex keeps its invariant while the other
call moves, provided the other call only ever makes a fresh token. -/
theorem threadInv_frame (k : Kind) (na na' : NodeApi) (tr evs : List Event)
    (th other other' : Thread) (h : ThreadInv k na tr th other) (hh : th.holds = false)
    (hmade : ∀ t, other'.made = some t → other.made = some t ∨ t ∉ created tr k) :
    ThreadInv k na' (tr ++ evs) th other' := by
  obtain ⟨h1, h2, h3⟩ := h
  refine ⟨h1, ?_, ?_⟩
  · intro t ht
    have := h2 t ht
    refine ⟨?_, ?_⟩
    · rw [created_append]; exact List.mem_append_left _ this.1
    · intro ho
      rcases hmade t ho with h' | h'
      · exact this.2 h'
      · exact h' this.1
  · cases hpc : th.pc with
    | lock => rw [hpc] at h3; exact h3
    | cancelOld => simp [Thread.holds, hpc] at hh
    | newToken => simp [Thread.holds, hpc] at hh
    | launch => simp [Thread.holds, hpc] at hh
    | unlock => simp [Thread.holds, hpc] at hh
    | returned ret =>
      rw [hpc] at h3
      simp only [Thread.holds, hpc] at hh
      refine ⟨h3.1, ?_⟩
      intro he
      rw [hh] at he; cases he

theorem holds_false_of_ne_true (th : Thread) (h : ¬ th.holds = true) : th.holds = false := by
  cases hh : th.holds with
  | true => exact absurd hh h
  | false => rfl

theorem not_newToken_of_not_holds (th : Thread) (h : th.holds = false) : th.pc ≠ Pc.newToken := by
  intro hpc
  simp [Thread.holds, hpc] at h

/-- One statement of the first call preserves the invariant. -/
theorem sysInv_step_core (k : Kind) (na : NodeApi) (tr : List Event) (a b : Thread)
    (hc : Consistent na tr) (ha : ThreadInv k na tr a b) (hb : ThreadInv k na tr b a)
    (hl : SlotLive k na tr a b) (na' : NodeApi) (evs : List Event) (a' : Thread)
    (hstep : a.step na = some (na', evs, a')) :
    Consistent na' (tr ++ evs) ∧ ThreadInv k na' (tr ++ evs) a' b ∧
      ThreadInv k na' (tr ++ evs) b a' ∧ SlotLive k na' (tr ++ evs) a' b := by
  obtain ⟨hk, hm, hp⟩ := ha
  unfold Thread.step at hstep
  cases hpc : a.pc with
  | lock =>
    rw [hpc] at hstep hp
    simp only at hstep hp
    split at hstep
    · rename_i hf
      simp only [Option.some.injEq, Prod.mk.injEq] at hstep
      obtain ⟨rfl, rfl, rfl⟩ := hstep
      have hw : na.writer = false := by
        simp only [NodeApi.canLock, Bool.and_eq_true, Bool.not_eq_true'] at hf
        exact hf.1
      have hbh : b.holds = false := by
        apply holds_false_of_ne_true
        intro hh
        have := (threadInv_holds_writer k na tr b a hb hh).1
        rw [hw] at this; cases this
      refine ⟨?_, ?_, ?_, ?_⟩
      · exact consistent_append_cancels na _ tr [] hc (fun _ => rfl)
          (fun t ht => by simp [cancelled] at ht) (fun k' => cancelOf_setWriter na true k') rfl
      · refine ⟨hk, ?_, ?_⟩
        · intro t ht
          rw [List.append_nil]
          exact hm t ht
        · exact ⟨hp, rfl, hbh⟩
      · exact threadInv_frame k na _ tr [] b a _ hb hbh (fun t ht => Or.inl ht)
      · intro hP
        rcases hP with hP | hP
        · exact absurd hp hP
        · rcases hl (Or.inr hP) with h | h | ⟨t, h1, h2, h3⟩
          · rw [hpc] at h; cases h
          · exact absurd h (not_newToken_of_not_holds b hbh)
          · refine Or.inr (Or.inr ⟨t, ?_, ?_, h3⟩)
            · rw [cancelOf_setWriter]; exact h1
            · rw [List.append_nil]; exact h2
    · cases hstep
  | cancelOld =>
    rw [hpc] at hstep hp
    simp only [Option.some.injEq, Prod.mk.injEq] at hstep hp
    obtain ⟨rfl, rfl, rfl⟩ := hstep
    obtain ⟨hp1, hp2, hp3⟩ := hp
    refine ⟨?_, ?_, ?_, ?_⟩
    · exact consistent_append_cancels na na tr _ hc (fun k' => created_fire _ k')
        (fun t ht => ⟨a.kind, (cancelled_fire _ t).mp ht⟩) (fun _ => rfl) rfl
    · refine ⟨hk, ?_, ?_⟩
      · intro t ht
        have := hm t ht
        exact ⟨by rw [created_append]; exact List.mem_append_left _ this.1, this.2⟩
      · refine ⟨hp1, hp2, hp3, ?_⟩
        intro t ht
        rw [cancelled_append, Bool.or_eq_true]
        refine Or.inr ((cancelled_fire _ t).mpr ?_)
        rw [hk]; exact ht
    · exact threadInv_frame k na na tr _ b a _ hb hp3 (fun t ht => Or.inl ht)
    · intro _
      exact Or.inl rfl
  | newToken =>
    rw [hpc] at hstep hp
    simp only [Option.some.injEq, Prod.mk.injEq] at hstep hp
    obtain ⟨rfl, rfl, rfl⟩ := hstep
    obtain ⟨hp1, hp2, hp3, hp4⟩ := hp
    have hfresh : na.nextToken ∉ created tr k := fun h => Nat.lt_irrefl _ (hc.2.1 k _ h)
    have hnc : cancelled tr na.nextToken = false := by
      cases h : cancelled tr na.nextToken with
      | true => exact absurd (hc.1 _ h) (Nat.lt_irrefl _)
      | false => rfl
    refine ⟨?_, ?_, ?_, ?_⟩
    · refine consistent_create na _ tr a.kind hc ?_ rfl (fun k' => cancelOf_setSlot na a.kind k' _ _)
      rw [hk]; exact hp4
    · refine ⟨hk, ?_, ?_⟩
      · intro t ht
        simp only [Option.some.injEq] at ht
        subst ht
        refine ⟨?_, ?_⟩
        · rw [created_append, created_withCancel, if_pos hk]
          simp
        · intro hbm
          exact hfresh (hb.2.1 _ hbm).1
      · refine ⟨?_, hp3, na.nextToken, rfl, ?_, ?_⟩
        · rw [writer_setSlot]; exact hp2
        · rw [cancelOf_setSlot, if_pos hk.symm]
        · rw [cancelled_append, cancelled_withCancel, hnc]; rfl
    · refine threadInv_frame k na _ tr _ b a _ hb hp3 ?_
      intro t ht
      simp only [Option.some.injEq] at ht
      subst ht
      exact Or.inr hfresh
    · intro _
      refine Or.inr (Or.inr ⟨na.nextToken, ?_, ?_, Or.inl rfl⟩)
      · rw [cancelOf_setSlot, if_pos hk.symm]
      · rw [cancelled_append, cancelled_withCancel, hnc]; rfl
  | launch =>
    rw [hpc] at hstep hp
    simp only at hstep hp
    obtain ⟨hp1, hp2, t0, hp3, hp4, hp5⟩ := hp
    have key : ∀ (ev : Event) (pc' : Pc), (∀ k', created [ev] k' = []) → (∀ t, cancelled [ev] t = false) →
        (match pc' with
          | Pc.unlock => True
          | Pc.returned _ => True
          | _ => False) →
        Consistent na (tr ++ [ev]) ∧ ThreadInv k na (tr ++ [ev]) { a with pc := pc' } b ∧
          ThreadInv k na (tr ++ [ev]) b { a with pc := pc' } ∧
          SlotLive k na (tr ++ [ev]) { a with pc := pc' } b := by
      intro ev pc' hcr hcn hpc'
      have hcan : cancelled (tr ++ [ev]) t0 = false := by
        rw [cancelled_append, hcn, hp5]; rfl
      refine ⟨?_, ?_, ?_, ?_⟩
      · exact consistent_append_cancels na na tr _ hc hcr
          (fun t ht => by rw [hcn] at ht; cases ht) (fun _ => rfl) rfl
      · refine ⟨hk, ?_, ?_⟩
        · intro t ht
          have := hm t ht
          exact ⟨by rw [created_append]; exact List.mem_append_left _ this.1, this.2⟩
        · cases pc' with
          | unlock => exact ⟨hp1, hp2, t0, hp3, hp4, hcan⟩
          | returned ret => exact ⟨⟨t0, hp3⟩, fun _ => ⟨hp1, hp2⟩⟩
          | lock => exact hpc'.elim
          | cancelOld => exact hpc'.elim
          | newToken => exact hpc'.elim
          | launch => exact hpc'.elim
      · exact threadInv_frame k na na tr _ b a _ hb hp2 (fun t ht => Or.inl ht)
      · intro _
        exact Or.inr (Or.inr ⟨t0, hp4, hcan, Or.inl hp3⟩)
    split at hstep
    · cases hstep
    · split at hstep
      · simp only [Option.some.injEq, Prod.mk.injEq] at hstep
        obtain ⟨rfl, rfl, rfl⟩ := hstep
        exact key _ _ (fun k' => created_cmdStart _ _ _ _ k') (fun t => cancelled_cmdStart _ _ _ _ t) trivial
      · simp only [Option.some.injEq, Prod.mk.injEq] at hstep
        obtain ⟨rfl, rfl, rfl⟩ := hstep
        exact key _ _ (fun k' => created_cmdStart _ _ _ _ k') (fun t => cancelled_cmdStart _ _ _ _ t) trivial
  | unlock =>
    rw [hpc] at hstep hp
    simp only [Option.some.injEq, Prod.mk.injEq] at hstep hp
    obtain ⟨rfl, rfl, rfl⟩ := hstep
    obtain ⟨hp1, hp2, t0, hp3, hp4, hp5⟩ := hp
    refine ⟨?_, ?_, ?_, ?_⟩
    · exact consistent_append_cancels na _ tr [] hc (fun _ => rfl)
        (fun t ht => by simp [cancelled] at ht) (fun k' => cancelOf_setWriter na false k') rfl
    · refine ⟨hk, ?_, ?_⟩
      · intro t ht
        rw [List.append_nil]
        exact hm t ht
      · exact ⟨⟨t0, hp3⟩, fun h => by simp at h⟩
    · exact threadInv_frame k na _ tr [] b a _ hb hp2 (fun t ht => Or.inl ht)
    · intro _
      refine Or.inr (Or.inr ⟨t0, ?_, ?_, Or.inl hp3⟩)
      · rw [cancelOf_setWriter]; exact hp4
      · rw [List.append_nil]; exact hp5
  | returned ret =>
    rw [hpc] at hstep
    cases hstep

theorem slotLive_symm (k : Kind) (na : NodeApi) (tr : List Event) (a b : Thread)
    (h : SlotLive k na tr a b) : SlotLive k na tr b a := by
  intro hP
  rcases h hP.symm with h | h | ⟨t, h1, h2, h3⟩
  · exact Or.inr (Or.inl h)
  · exact Or.inl h
  · exact Or.inr (Or.inr ⟨t, h1, h2, h3.symm⟩)

theorem sysInv_step (k : Kind) (s : Sys) (first : Bool) (h : SysInv k s) :
    SysInv k (s.step first) := by
  obtain ⟨hc, ha, hb, hl⟩ := h
  unfold Sys.step
  cases first with
  | true =>
    simp only [if_true]
    cases hs : s.a.step s.na with
    | none => exact ⟨hc, ha, hb, hl⟩
    | some res =>
      obtain ⟨na', evs, a'⟩ := res
      exact sysInv_step_core k s.na s.trace s.a s.b hc ha hb hl na' evs a' hs
  | false =>
    simp only [Bool.false_eq_true, if_false]
    cases hs : s.b.step s.na with
    | none => exact ⟨hc, ha, hb, hl⟩
    | some res =>
      obtain ⟨na', evs, b'⟩ := res
      obtain ⟨h1, h2, h3, h4⟩ := sysInv_step_core k s.na s.trace s.b s.a hc hb ha
        (slotLive_symm k _ _ _ _ hl) na' evs b' hs
      exact ⟨h1, h3, h2, slotLive_symm k _ _ _ _ h4⟩

theorem sysInv_run (k : Kind) (sched : List Bool) (s : Sys) (h : SysInv k s) :
    SysInv k (s.run sched) := by
  induction sched generalizing s with
  | nil => exact h
  | cons f fs ih => exact ih (s.step f) (sysInv_step k s f h)

theorem sysInv_init (k : Kind) (na : NodeApi) (tr : List Event) (r1 r2 : Request)
    (e1 e2 : Option String) (hc : Consistent na tr) :
    SysInv k { na := na, trace := tr, a := Thread.init k r1 e1, b := Thread.init k r2 e2 } := by
  refine ⟨hc, ⟨rfl, ?_, rfl⟩, ⟨rfl, ?_, rfl⟩, ?_⟩
  · intro t ht; simp [Thread.init] at ht
  · intro t ht; simp [Thread.init] at ht
  · intro hP
    simp [Thread.init] at hP

theorem eq_singleton_of_nodup (l : List Token) (x : Token) (hn : l.Nodup)
    (h : ∀ y ∈ l, y = x) (hx : x ∈ l) : l = [x] := by
  match l, hn, h, hx with
  | [], _, _, hx => simp at hx
  | [a], _, h, _ => rw [h a (by simp)]
  | a :: b :: _, hn, h, _ =>
    have ha : a = x := h a (by simp)
    have hb : b = x := h b (by simp)
    rw [ha, hb] at hn
    simp at hn

/-- In a consistent state whose slot token was created for the kind and is not
cancelled, that token is the only live one. -/
theorem live_eq_singleton (na : NodeApi) (tr : List Event) (k : Kind) (t : Token)
    (hc : Consistent na tr) (hs : na.cancelOf k = some t) (hcr : t ∈ created tr k)
    (hn : cancelled tr t = false) : live tr k = [t] := by
  refine eq_singleton_of_nodup _ t (live_nodup na tr k hc) ?_ ((mem_live tr k t).mpr ⟨hcr, hn⟩)
  intro y hy
  have := live_eq_slot na tr k hc y hy
  rw [hs] at this
  exact (Option.some.inj this).symm

/-- What the invariant gives once both calls have returned. -/
theorem sysInv_both_returned (k : Kind) (s : Sys) (h : SysInv k s) (ra rb : Ret)
    (hra : s.a.pc = Pc.returned ra) (hrb : s.b.pc = Pc.returned rb) :
    ∃ ta tb, s.a.made = some ta ∧ s.b.made = some tb ∧ ta ≠ tb ∧
      ((s.na.cancelOf k = some ta ∧ live s.trace k = [ta] ∧ cancelled s.trace tb = true) ∨
        (s.na.cancelOf k = some tb ∧ live s.trace k = [tb] ∧ cancelled s.trace ta = true)) := by
  obtain ⟨hc, ha, hb, hl⟩ := h
  obtain ⟨-, ham, hap⟩ := ha
  obtain ⟨-, hbm, hbp⟩ := hb
  rw [hra] at hap
  rw [hrb] at hbp
  obtain ⟨ta, hta⟩ := hap.1
  obtain ⟨tb, htb⟩ := hbp.1
  have hne : ta ≠ tb := by
    intro heq
    exact (ham ta hta).2 (heq ▸ htb)
  have hca := (ham ta hta).1
  have hcb := (hbm tb htb).1
  refine ⟨ta, tb, hta, htb, hne, ?_⟩
  have hP : s.a.made ≠ none ∨ s.b.made ≠ none := Or.inl (by rw [hta]; simp)
  rcases hl hP with h | h | ⟨t, h1, h2, h3⟩
  · rw [hra] at h; cases h
  · rw [hrb] at h; cases h
  · rcases h3 with h3 | h3
    · have ht : t = ta := by rw [hta] at h3; exact (Option.some.inj h3).symm
      subst ht
      refine Or.inl ⟨h1, live_eq_singleton s.na s.trace k t hc h1 hca h2, ?_⟩
      rcases hc.2.2.2.2 k tb hcb with h' | h'
      · rw [h1] at h'; exact absurd (Option.some.inj h') hne
      · exact h'
    · have ht : t = tb := by rw [htb] at h3; exact (Option.some.inj h3).symm
      subst ht
      refine Or.inr ⟨h1, live_eq_singleton s.na s.trace k t hc h1 hcb h2, ?_⟩
      rcases hc.2.2.2.2 k ta hca with h' | h'
      · rw [h1] at h'; exact absurd (Option.some.inj h').symm hne
      · exact h'

/-- A call run on its own from a state whose mutex is free does what the
handler does: same state after, same effects, same returned values. -/
theorem runAlone_eq_start (k : Kind) (na : NodeApi) (r : Request) (e : Option String)
    (hf : na.canLock = true) :
    ∃ ret, (start k na r e).ret = some ret ∧
      Thread.runAlone 5 (Thread.init k r e) na [] =
        ((start k na r e).na, (start k na r e).events,
          { kind := k, r := r, startErr := e, pc := Pc.returned ret, made := some na.nextToken }) := by
  cases k <;> cases e <;>
    simp [Thread.runAlone, Thread.step, Thread.init, start, runSshs, runSshc, runSockss, runSocksc,
      hf, NodeApi.setSlot, NodeApi.cxtOf, NodeApi.cancelOf, program, launchArgs,
      NodeApi.GetListenAddress]

/-- A call run on its own from a state whose mutex is held never moves, as the
handler never returns. -/
theorem runAlone_blocked (k : Kind) (na : NodeApi) (r : Request) (e : Option String) (n : Nat)
    (hf : na.canLock = false) :
    (start k na r e).ret = none ∧
      Thread.runAlone n (Thread.init k r e) na [] = (na, [], Thread.init k r e) := by
  refine ⟨by rw [start_blocked k na r e hf], ?_⟩
  cases n <;> simp [Thread.runAlone, Thread.step, Thread.init, hf]

/-- From a state whose mutex is free, with both launches succeeding, the
schedule that runs the first call and then the second lets both return. -/
theorem serial_schedule_completes (k : Kind) (na : NodeApi) (tr : List Event) (r1 r2 : Request)
    (hf : na.canLock = true) :
    (Sys.run { na := na, trace := tr, a := Thread.init k r1 none, b := Thread.init k r2 none }
      [true, true, true, true, true, false, false, false, false, false]).a.pc =
        Pc.returned { result := some "true", err := none } ∧
    (Sys.run { na := na, trace := tr, a := Thread.init k r1 none, b := Thread.init k r2 none }
      [true, true, true, true, true, false, false, false, false, false]).b.pc =
        Pc.returned { result := some "true", err := none } := by
  have h2 : na.writer = false ∧ na.readers = 0 := by simpa [NodeApi.canLock] using hf
  cases k <;>
    simp [Sys.run, Sys.step, Thread.step, Thread.init, NodeApi.canLock, h2.1, h2.2,
      NodeApi.setSlot, NodeApi.cxtOf]

/-! ### The claims -/

/-- C3: for peer keys `k1..kn`, each non-empty and free of commas, given to
`runSshs` as the comma-joined form value `data`, the argument list of the
`./sshs` launch is `-node-address`, the listen address, then `-node-key` and
the key for each key in input order; its length is `2 + 2n`. Every launch the
handler makes has this list, and the handler makes it whenever it gets the mutex. -/
theorem C3_sshs_argument_list (keys : List String) (na : NodeApi) (r : Request)
    (e : Option String) (hkeys : ∀ k ∈ keys, k ≠ "" ∧ ',' ∉ k.data)
    (hdata : r.FormValue "data" = String.intercalate "," keys) :
    (["-node-address", na.GetListenAddress] ++ keyFlags keys).length = 2 + 2 * keys.length ∧
    (∀ p args c f, Event.cmdStart p args c f ∈ (runSshs na r e).events →
      p = "./sshs" ∧ args = ["-node-address", na.GetListenAddress] ++ keyFlags keys) ∧
    (na.canLock = true →
      Event.cmdStart "./sshs" (["-node-address", na.GetListenAddress] ++ keyFlags keys)
        na.nextToken e.isSome ∈ (runSshs na r e).events) := by
  have hargs : launchArgs Kind.sshs na r = ["-node-address", na.GetListenAddress] ++ keyFlags keys := by
    simp only [launchArgs, hdata]
    exact sshsArgs_keys _ keys hkeys
  refine ⟨?_, ?_, ?_⟩
  · simp [length_keyFlags]; omega
  · intro p args c f h
    have h2 := cmdStart_mem_start Kind.sshs na r e p args c f h
    exact ⟨h2.2.1, h2.2.2.1.trans hargs⟩
  · intro hf
    have hev := start_events Kind.sshs na r e hf
    simp only [start] at hev
    rw [hev, hargs]
    simp [program]

theorem C3_witness :
    (∀ k ∈ ["A", "B", "C"], k ≠ "" ∧ ',' ∉ k.data) ∧
    Event.cmdStart "./sshs"
        ["-node-address", "10.0.0.1:5000", "-node-key", "A", "-node-key", "B", "-node-key", "C"]
        0 false ∈
      (runSshs (New ":6001" "10.0.0.1:5000") { form := [("data", "A,B,C")] } none).events :=
  ⟨by decide,
    (C3_sshs_argument_list ["A", "B", "C"] (New ":6001" "10.0.0.1:5000")
      { form := [("data", "A,B,C")] } none (by decide) (by decide)).2.2 (by decide)⟩

/-- C8: every launch made by a start of any kind is handed an argument list
in which `-node-address` is immediately followed by the value of
`GetListenAddress`; for the two SOCKS kinds the list is exactly that pair, for
the SSH client it is `-node-key toNode -app-key toApp -node-address address`.
A start that gets the mutex makes such a launch. -/
theorem C8_listen_address_passed (k : Kind) (na : NodeApi) (r : Request) (e : Option String) :
    (∀ p args c f, Event.cmdStart p args c f ∈ (start k na r e).events →
      (∃ pre post, args = pre ++ ["-node-address", na.GetListenAddress] ++ post) ∧
      (k = Kind.sockss ∨ k = Kind.socksc → args = ["-node-address", na.GetListenAddress]) ∧
      (k = Kind.sshc →
        args = ["-node-key", r.FormValue "toNode", "-app-key", r.FormValue "toApp",
          "-node-address", na.GetListenAddress])) ∧
    (na.canLock = true →
      ∃ args, Event.cmdStart (program k) args na.nextToken e.isSome ∈ (start k na r e).events) := by
  constructor
  · intro p args c f h
    obtain ⟨-, -, hargs, -, -⟩ := cmdStart_mem_start k na r e p args c f h
    subst hargs
    cases k
    · refine ⟨⟨[], keyFlags (if r.FormValue "data" ≠ "" then stringsSplit (r.FormValue "data") ','
        else []), ?_⟩, by simp, by simp⟩
      simp only [launchArgs]
      rw [sshsArgs_eq]
      simp
    · refine ⟨⟨["-node-key", r.FormValue "toNode", "-app-key", r.FormValue "toApp"], [], ?_⟩,
        by simp, ?_⟩
      · simp [launchArgs]
      · intro _; rfl
    · exact ⟨⟨[], [], by simp [launchArgs]⟩, fun _ => rfl, by simp⟩
    · exact ⟨⟨[], [], by simp [launchArgs]⟩, fun _ => rfl, by simp⟩
  · intro hf
    refine ⟨launchArgs k na r, ?_⟩
    rw [start_events k na r e hf]
    simp

theorem C8_witness :
    Event.cmdStart "./sshc"
        ["-node-key", "N1", "-app-key", "P1", "-node-address", "10.0.0.1:5000"] 0 false ∈
      (start Kind.sshc (New ":6001" "10.0.0.1:5000")
        { form := [("toNode", "N1"), ("toApp", "P1")] } none).events ∧
    ["-node-key", "N1", "-app-key", "P1", "-node-address", "10.0.0.1:5000"] =
      ["-node-key", (Request.mk [("toNode", "N1"), ("toApp", "P1")]).FormValue "toNode",
        "-app-key", (Request.mk [("toNode", "N1"), ("toApp", "P1")]).FormValue "toApp",
        "-node-address", (New ":6001" "10.0.0.1:5000").GetListenAddress] :=
  ⟨by decide,
    ((C8_listen_address_passed Kind.sshc (New ":6001" "10.0.0.1:5000")
      { form := [("toNode", "N1"), ("toApp", "P1")] } none).1 "./sshc"
      ["-node-key", "N1", "-app-key", "P1", "-node-address", "10.0.0.1:5000"] 0 false
      (by decide)).2.2 rfl⟩

/-- C6: a start of kind `k`, whatever the outcome of its launch, leaves the
context and cancel fields of every other kind as they were, and fires no
cancel function other than the one stored for `k` before the call. -/
theorem C6_other_kinds_untouched (k k' : Kind) (hne : k ≠ k') (na : NodeApi) (r : Request)
    (e : Option String) :
    (start k na r e).na.cxtOf k' = na.cxtOf k' ∧
    (start k na r e).na.cancelOf k' = na.cancelOf k' ∧
    ∀ t, Event.cancel t ∈ (start k na r e).events → na.cancelOf k = some t := by
  rcases canLock_cases na with hf | hf
  · have hk : ¬ k' = k := fun h => hne h.symm
    refine ⟨?_, ?_, ?_⟩
    · rw [start_cxtOf k k' na r e hf, if_neg hk]
    · rw [start_cancelOf k k' na r e hf, if_neg hk]
    · intro t ht
      rw [start_events k na r e hf] at ht
      simp only [List.mem_append, mem_fire, List.mem_cons, List.mem_singleton,
        List.not_mem_nil, or_false] at ht
      rcases ht with ⟨t', h1, h2⟩ | h | h
      · cases h2; exact h1
      · cases h
      · cases h
  · rw [start_blocked k na r e hf]
    simp

theorem C6_witness :
    Kind.sshs ≠ Kind.sockss ∧
    (runSockss (New ":6001" "10.0.0.1:5000") { form := [] } none).na.cancelOf Kind.sockss = some 0 ∧
    (start Kind.sshs (runSockss (New ":6001" "10.0.0.1:5000") { form := [] } none).na
      { form := [("data", "A")] } none).na.cancelOf Kind.sockss = some 0 :=
  ⟨by decide, by decide,
    (C6_other_kinds_untouched Kind.sshs Kind.sockss (by decide)
      (runSockss (New ":6001" "10.0.0.1:5000") { form := [] } none).na
      { form := [("data", "A")] } none).2.1.trans (by decide)⟩

/-- C10 at a failing input: on a fresh `NodeApi`, each of the four start
handlers whose launch fails returns the error with the mutex still held by
the writer; a later start and a later `Close` then never return. -/
theorem C10_failed_launch_keeps_mutex :
    (runSshc node0 noForm (some launchError)).ret = some { result := none, err := some launchError } ∧
    (runSshc node0 noForm (some launchError)).na.writer = true ∧
    (runSshs node0 noForm (some launchError)).na.writer = true ∧
    (runSockss node0 noForm (some launchError)).na.writer = true ∧
    (runSocksc node0 noForm (some launchError)).na.writer = true ∧
    (runSockss (runSshc node0 noForm (some launchError)).na noForm none).ret = none ∧
    (Close (runSshc node0 noForm (some launchError)).na none).ret = none := by
  decide

/-- C1 at a failing input: `runSshs` whose launch fails stores token 0 in the
ssh-server slot; a further `runSshs` then blocks in `na.Lock()`: it fires no
cancel function, launches nothing and never returns, and the slot still holds
token 0. -/
theorem C1_second_start_blocks_after_failed_launch :
    (runSshs node0 noForm (some launchError)).na.sshsCancel = some 0 ∧
    (start Kind.sshs (runSshs node0 noForm (some launchError)).na noForm none).events = [] ∧
    (start Kind.sshs (runSshs node0 noForm (some launchError)).na noForm none).ret = none ∧
    (start Kind.sshs (runSshs node0 noForm (some launchError)).na noForm none).na.sshsCancel =
      some 0 := by
  decide

/-- C7 at a failing input: after `runSshs` has launched (token 0) and
`runSockss` has failed its launch (token 1), `Close` blocks in `na.RLock()`:
it fires neither stored cancel function and never returns. -/
theorem C7_close_blocks_after_failed_launch :
    (runSockss (runSshs node0 noForm none).na noForm (some launchError)).na.sshsCancel = some 0 ∧
    (runSockss (runSshs node0 noForm none).na noForm (some launchError)).na.sockssCancel = some 1 ∧
    (Close (runSockss (runSshs node0 noForm none).na noForm (some launchError)).na none).events
      = [] ∧
    (Close (runSockss (runSshs node0 noForm none).na noForm (some launchError)).na none).ret
      = none := by
  decide

/-- C4 refuted: on a fresh `NodeApi`, `runSshc` whose launch fails returns the
error, and the ssh-client slot is not empty afterwards. -/
theorem C4_counterexample :
    (runSshc node0 noForm (some launchError)).ret = some { result := none, err := some launchError } ∧
    ¬ ((runSshc node0 noForm (some launchError)).na.sshcCancel = none) := by
  decide

/-- C4 amended: for every kind `k` and every prior state, when the launch
inside a start of `k` fails, the start returns that error, and the slot of `k`
is not cleared: its context and cancel fields hold the token that was created
for the failed launch. -/
theorem C4_failed_launch_keeps_token (k : Kind) (na : NodeApi) (r : Request) (e : Option String)
    (p : String) (args : List String) (c : Token)
    (hfail : Event.cmdStart p args c true ∈ (start k na r e).events) :
    e ≠ none ∧
    (start k na r e).ret = some { result := none, err := e } ∧
    Event.withCancel k c ∈ (start k na r e).events ∧
    (start k na r e).na.cancelOf k = some c ∧
    (start k na r e).na.cxtOf k = some c := by
  obtain ⟨hfree, -, -, hc, he⟩ := cmdStart_mem_start k na r e p args c true hfail
  subst hc
  cases e with
  | none => simp at he
  | some x =>
    refine ⟨by simp, ?_, ?_, ?_, ?_⟩
    · rw [start_ret k na r (some x) hfree]
    · rw [start_events k na r (some x) hfree]; simp
    · rw [start_cancelOf k k na r (some x) hfree]; simp
    · rw [start_cxtOf k k na r (some x) hfree]; simp

theorem C4_witness :
    Event.cmdStart "./sockss" ["-node-address", "10.0.0.1:5000"] 0 true ∈
      (start Kind.sockss node0 noForm (some launchError)).events ∧
    (start Kind.sockss node0 noForm (some launchError)).na.cancelOf Kind.sockss = some 0 :=
  ⟨by decide,
    (C4_failed_launch_keeps_token Kind.sockss node0 noForm (some launchError) "./sockss"
      ["-node-address", "10.0.0.1:5000"] 0 (by decide)).2.2.2.1⟩

/-- C5 refuted: with token 0 stored in the ssh-client slot, `runSshc` with no
form value at all returns `true` without error, having cancelled token 0,
created token 1 and launched `./sshc` with an empty peer key. -/
theorem C5_counterexample :
    noForm.FormValue "toNode" = "" ∧
    (runSshc (runSshc node0 { form := [("toNode", "N1"), ("toApp", "P1")] } none).na noForm none).ret
      = some { result := some "true", err := none } ∧
    (runSshc (runSshc node0 { form := [("toNode", "N1"), ("toApp", "P1")] } none).na noForm none).events
      = [Event.cancel 0, Event.withCancel Kind.sshc 1,
          Event.cmdStart "./sshc" ["-node-key", "", "-app-key", "", "-node-address", "10.0.0.1:5000"]
            1 false] ∧
    (runSshc (runSshc node0 { form := [("toNode", "N1"), ("toApp", "P1")] } none).na noForm none).na.sshcCancel
      = some 1 := by
  decide

/-- C5 amended: a start of a client kind with no peer key supplied is not
rejected. When it gets the mutex it proceeds like any other start: it fires
the cancel function stored in the slot, creates and stores a new token and
launches the process (`runSshc` with the empty string after `-node-key`), and
returns `true` when the launch succeeds, the launch error when it fails. -/
theorem C5_no_argument_validation (k : Kind) (na : NodeApi) (r : Request) (e : Option String)
    (hk : k = Kind.sshc ∨ k = Kind.socksc) (hempty : r.FormValue "toNode" = "")
    (hfree : na.canLock = true) :
    (start k na r e).events =
      fire (na.cancelOf k) ++ [Event.withCancel k na.nextToken,
        Event.cmdStart (program k) (launchArgs k na r) na.nextToken e.isSome] ∧
    (k = Kind.sshc →
      launchArgs k na r =
        ["-node-key", "", "-app-key", r.FormValue "toApp", "-node-address", na.GetListenAddress]) ∧
    (k = Kind.socksc → launchArgs k na r = ["-node-address", na.GetListenAddress]) ∧
    (start k na r e).na.cancelOf k = some na.nextToken ∧
    (start k na r e).ret = some (match e with
      | some x => { result := none, err := some x }
      | none => { result := some "true", err := none }) := by
  refine ⟨start_events k na r e hfree, ?_, ?_, ?_, start_ret k na r e hfree⟩
  · intro h; subst h; simp [launchArgs, hempty]
  · intro h; subst h; simp [launchArgs]
  · rw [start_cancelOf k k na r e hfree]; simp

theorem C5_witness :
    (Kind.sshc = Kind.sshc ∨ Kind.sshc = Kind.socksc) ∧ noForm.FormValue "toNode" = "" ∧
    node0.canLock = true ∧
    (start Kind.sshc node0 noForm none).ret = some { result := some "true", err := none } :=
  ⟨by decide, by decide, by decide,
    (C5_no_argument_validation Kind.sshc node0 noForm none (by decide) (by decide)
      (by decide)).2.2.2.2⟩

/-- C2: after any finite sequence of start requests (any kinds, any
arguments, every launch succeeding) applied to a fresh `NodeApi`, each kind has
at most one token created for it and not yet cancelled: every token ever
created for the kind, other than the one stored in its slot, has been
cancelled. Every request of the sequence did create a token, and the mutex is
free again after the last one. -/
theorem C2_one_live_token_per_kind (addr listen : String) (calls : List (Kind × Request))
    (k : Kind) :
    (live (runOps (startOps calls) (New addr listen, [])).2 k).length ≤ 1 ∧
    (∀ t, t ∈ created (runOps (startOps calls) (New addr listen, [])).2 k →
      (runOps (startOps calls) (New addr listen, [])).1.cancelOf k ≠ some t →
      cancelled (runOps (startOps calls) (New addr listen, [])).2 t = true) ∧
    (created (runOps (startOps calls) (New addr listen, [])).2 k).length =
      (calls.filter fun c => c.1 = k).length ∧
    (runOps (startOps calls) (New addr listen, [])).1.canLock = true := by
  have hc := consistent_runOps (startOps calls) (New addr listen) [] (consistent_New addr listen)
  have hcount := startOps_free_and_count calls (New addr listen) [] k (by simp [New, NodeApi.canLock])
  refine ⟨live_length_le_one _ _ k hc, ?_, ?_, hcount.1⟩
  · intro t ht hne
    rcases hc.2.2.2.2 k t ht with h | h
    · exact absurd h hne
    · exact h
  · simpa [created] using hcount.2

theorem C2_witness :
    (0 ∈ created (runOps (startOps [(Kind.sshs, noForm), (Kind.sockss, noForm), (Kind.sshs, noForm)])
      (New ":6001" "10.0.0.1:5000", [])).2 Kind.sshs) ∧
    (runOps (startOps [(Kind.sshs, noForm), (Kind.sockss, noForm), (Kind.sshs, noForm)])
      (New ":6001" "10.0.0.1:5000", [])).1.cancelOf Kind.sshs ≠ some 0 ∧
    cancelled (runOps (startOps [(Kind.sshs, noForm), (Kind.sockss, noForm), (Kind.sshs, noForm)])
      (New ":6001" "10.0.0.1:5000", [])).2 0 = true :=
  ⟨by decide, by decide,
    (C2_one_live_token_per_kind ":6001" "10.0.0.1:5000"
      [(Kind.sshs, noForm), (Kind.sockss, noForm), (Kind.sshs, noForm)] Kind.sshs).2.1 0
      (by decide) (by decide)⟩

/-- C9: for two concurrent starts of one kind `k`, issued in any state reached
from a fresh `NodeApi`, and for every interleaving of their statements: at no
point do two uncancelled tokens of `k` exist, and once both calls have returned
exactly one token of `k` is live; it is the token of one of the two calls and
is stored in the slot, and the token of the other call has been cancelled. -/
theorem C9_concurrent_starts_one_live_token (addr listen : String) (ops : List Op) (k : Kind)
    (r1 r2 : Request) (e1 e2 : Option String) (sched : List Bool) :
    (live (concurrentStarts addr listen ops k r1 r2 e1 e2 sched).trace k).length ≤ 1 ∧
    ∀ ra rb,
      (concurrentStarts addr listen ops k r1 r2 e1 e2 sched).a.pc = Pc.returned ra →
      (concurrentStarts addr listen ops k r1 r2 e1 e2 sched).b.pc = Pc.returned rb →
      ∃ ta tb,
        (concurrentStarts addr listen ops k r1 r2 e1 e2 sched).a.made = some ta ∧
        (concurrentStarts addr listen ops k r1 r2 e1 e2 sched).b.made = some tb ∧ ta ≠ tb ∧
        (((concurrentStarts addr listen ops k r1 r2 e1 e2 sched).na.cancelOf k = some ta ∧
            live (concurrentStarts addr listen ops k r1 r2 e1 e2 sched).trace k = [ta] ∧
            cancelled (concurrentStarts addr listen ops k r1 r2 e1 e2 sched).trace tb = true) ∨
          ((concurrentStarts addr listen ops k r1 r2 e1 e2 sched).na.cancelOf k = some tb ∧
            live (concurrentStarts addr listen ops k r1 r2 e1 e2 sched).trace k = [tb] ∧
            cancelled (concurrentStarts addr listen ops k r1 r2 e1 e2 sched).trace ta = true)) := by
  have hc : Consistent (reached addr listen ops).1 (reached addr listen ops).2 :=
    consistent_runOps ops (New addr listen) [] (consistent_New addr listen)
  have hinv : SysInv k (concurrentStarts addr listen ops k r1 r2 e1 e2 sched) :=
    sysInv_run k sched _ (sysInv_init k _ _ r1 r2 e1 e2 hc)
  exact ⟨live_length_le_one _ _ k hinv.1, fun ra rb hra hrb =>
    sysInv_both_returned k _ hinv ra rb hra hrb⟩

theorem C9_witness :
    (concurrentStarts ":6001" "10.0.0.1:5000" [Op.start Kind.sockss noForm none] Kind.sockss
      noForm noForm none (some launchError)
      [true, false, true, false, true, true, false, true, false, false, false, false]).a.pc =
        Pc.returned { result := some "true", err := none } ∧
    (concurrentStarts ":6001" "10.0.0.1:5000" [Op.start Kind.sockss noForm none] Kind.sockss
      noForm noForm none (some launchError)
      [true, false, true, false, true, true, false, true, false, false, false, false]).b.pc =
        Pc.returned { result := none, err := some launchError } ∧
    ∃ ta tb,
      (concurrentStarts ":6001" "10.0.0.1:5000" [Op.start Kind.sockss noForm none] Kind.sockss
        noForm noForm none (some launchError)
        [true, false, true, false, true, true, false, true, false, false, false, false]).a.made =
          some ta ∧
      (concurrentStarts ":6001" "10.0.0.1:5000" [Op.start Kind.sockss noForm none] Kind.sockss
        noForm noForm none (some launchError)
        [true, false, true, false, true, true, false, true, false, false, false, false]).b.made =
          some tb ∧
      ta ≠ tb :=
  ⟨by decide, by decide,
    (((C9_concurrent_starts_one_live_token ":6001" "10.0.0.1:5000"
      [Op.start Kind.sockss noForm none] Kind.sockss noForm noForm none (some launchError)
      [true, false, true, false, true, true, false, true, false, false, false, false]).2
      { result := some "true", err := none } { result := none, err := some launchError }
      (by decide) (by decide)).imp fun _ h => h.imp fun _ h' => ⟨h'.1, h'.2.1, h'.2.2.1⟩)⟩

end Skywire
